import Mathlib

/-!
Verification of the prompt-vault-processor repository: a shallow embedding of
the content-addressed vault store (vault.go and storage/filesystem.go) and the
attribute offload pipeline (the vaultProcessor), with theorems settling the
specification claims.

Payloads are byte lists (List Nat, each element a byte value). Filesystem
state is passed explicitly. Checksums use an executable SHA-256 translated
from the standard algorithm that Go crypto/sha256 implements, with 32-bit
words represented as Nat reduced modulo 2 ^ 32.
-/

/-! ## SHA-256 over byte lists -/

/-- Truncate to a 32-bit word, as Go uint32 arithmetic does. -/
def w32 (x : Nat) : Nat := x % 4294967296

/-- Rotate a 32-bit word right by n bits. -/
def rotr (n x : Nat) : Nat := x / 2 ^ n + x % 2 ^ n * 2 ^ (32 - n)

/-- Bitwise complement of a 32-bit word. -/
def comp32 (x : Nat) : Nat := 4294967295 - w32 x

/-- SHA-256 choice function. -/
def shaCh (x y z : Nat) : Nat := Nat.xor (Nat.land x y) (Nat.land (comp32 x) z)

/-- SHA-256 majority function. -/
def shaMaj (x y z : Nat) : Nat :=
  Nat.xor (Nat.xor (Nat.land x y) (Nat.land x z)) (Nat.land y z)

/-- SHA-256 big sigma 0. -/
def bigSig0 (x : Nat) : Nat := Nat.xor (Nat.xor (rotr 2 x) (rotr 13 x)) (rotr 22 x)

/-- SHA-256 big sigma 1. -/
def bigSig1 (x : Nat) : Nat := Nat.xor (Nat.xor (rotr 6 x) (rotr 11 x)) (rotr 25 x)

/-- SHA-256 small sigma 0. -/
def smallSig0 (x : Nat) : Nat := Nat.xor (Nat.xor (rotr 7 x) (rotr 18 x)) (x / 2 ^ 3)

/-- SHA-256 small sigma 1. -/
def smallSig1 (x : Nat) : Nat := Nat.xor (Nat.xor (rotr 17 x) (rotr 19 x)) (x / 2 ^ 10)

/-- SHA-256 round constants. -/
def shaK : List Nat :=
  [1116352408, 1899447441, 3049323471, 3921009573, 961987163,
   1508970993, 2453635748, 2870763221, 3624381080, 310598401,
   607225278, 1426881987, 1925078388, 2162078206, 2614888103,
   3248222580, 3835390401, 4022224774, 264347078, 604807628,
   770255983, 1249150122, 1555081692, 1996064986, 2554220882,
   2821834349, 2952996808, 3210313671, 3336571891, 3584528711,
   113926993, 338241895, 666307205, 773529912, 1294757372,
   1396182291, 1695183700, 1986661051, 2177026350, 2456956037,
   2730485921, 2820302411, 3259730800, 3345764771, 3516065817,
   3600352804, 4094571909, 275423344, 430227734, 506948616,
   659060556, 883997877, 958139571, 1322822218, 1537002063,
   1747873779, 1955562222, 2024104815, 2227730452, 2361852424,
   2428436474, 2756734187, 3204031479, 3329325298]

/-- The eight 32-bit words of a SHA-256 hash state. -/
structure Hash8 where
  a : Nat
  b : Nat
  c : Nat
  d : Nat
  e : Nat
  f : Nat
  g : Nat
  hh : Nat
deriving Repr, DecidableEq

/-- SHA-256 initial hash value. -/
def shaH0 : Hash8 :=
  ⟨1779033703, 3144134277, 1013904242, 2773480762,
   1359893119, 2600822924, 528734635, 1541459225⟩

/-- Pad a message to a multiple of 64 bytes: append 0x80, zeros, and the
64-bit big-endian bit length. -/
def shaPad (msg : List Nat) : List Nat :=
  let len := msg.length
  let zeros := (64 - (len + 9) % 64) % 64
  let bitLen := 8 * len % 2 ^ 64
  msg ++ 128 :: List.replicate zeros 0 ++
    [bitLen / 2 ^ 56 % 256, bitLen / 2 ^ 48 % 256, bitLen / 2 ^ 40 % 256,
     bitLen / 2 ^ 32 % 256, bitLen / 2 ^ 24 % 256, bitLen / 2 ^ 16 % 256,
     bitLen / 2 ^ 8 % 256, bitLen % 256]

/-- Combine four bytes into one big-endian 32-bit word. -/
def beWord (b0 b1 b2 b3 : Nat) : Nat := ((b0 * 256 + b1) * 256 + b2) * 256 + b3

/-- The sixteen message words of block i of a padded message. -/
def blockWords (padded : List Nat) (i : Nat) : List Nat :=
  (List.range 16).map fun j =>
    beWord (padded.getD (64 * i + 4 * j) 0) (padded.getD (64 * i + 4 * j + 1) 0)
      (padded.getD (64 * i + 4 * j + 2) 0) (padded.getD (64 * i + 4 * j + 3) 0)

/-- Extend sixteen message words to the 64-entry message schedule. -/
def shaSchedule (w16 : List Nat) : List Nat :=
  (List.range 48).foldl
    (fun w _ =>
      w ++ [w32 (smallSig1 (w.getD (w.length - 2) 0) + w.getD (w.length - 7) 0 +
        smallSig0 (w.getD (w.length - 15) 0) + w.getD (w.length - 16) 0)])
    w16

/-- One SHA-256 round, consuming one schedule word and one round constant. -/
def shaRound (s : Hash8) (wk : Nat × Nat) : Hash8 :=
  let t1 := w32 (s.hh + bigSig1 s.e + shaCh s.e s.f s.g + wk.2 + wk.1)
  let t2 := w32 (bigSig0 s.a + shaMaj s.a s.b s.c)
  ⟨w32 (t1 + t2), s.a, s.b, s.c, w32 (s.d + t1), s.e, s.f, s.g⟩

/-- Compress one message block into the hash state. -/
def shaCompress (s : Hash8) (ws : List Nat) : Hash8 :=
  let t := (ws.zip shaK).foldl shaRound s
  ⟨w32 (s.a + t.a), w32 (s.b + t.b), w32 (s.c + t.c), w32 (s.d + t.d),
   w32 (s.e + t.e), w32 (s.f + t.f), w32 (s.g + t.g), w32 (s.hh + t.hh)⟩

/-- Big-endian bytes of one 32-bit word. -/
def wordBytes (w : Nat) : List Nat :=
  [w / 16777216 % 256, w / 65536 % 256, w / 256 % 256, w % 256]

/-- SHA-256 digest of a byte list, as 32 bytes. -/
def sha256bytes (msg : List Nat) : List Nat :=
  let padded := shaPad msg
  let nb := padded.length / 64
  let s := (List.range nb).foldl
    (fun s i => shaCompress s (shaSchedule (blockWords padded i))) shaH0
  wordBytes s.a ++ wordBytes s.b ++ wordBytes s.c ++ wordBytes s.d ++
    wordBytes s.e ++ wordBytes s.f ++ wordBytes s.g ++ wordBytes s.hh

/-- Lowercase hex digit for a value below 16. -/
def hexDigit (n : Nat) : Char :=
  if n < 10 then Char.ofNat (48 + n) else Char.ofNat (87 + n % 16)

/-- Two lowercase hex characters of one byte. -/
def byteHex (b : Nat) : List Char := [hexDigit (b / 16 % 16), hexDigit (b % 16)]

/-- Lowercase hex SHA-256 digest of a byte list, as hex.EncodeToString and
fmt.Sprintf with a percent-x verb produce in the Go sources. -/
def sha256hex (msg : List Nat) : String := String.mk ((sha256bytes msg).flatMap byteHex)

/-! ## String helpers

The Go sources test and strip literal string prefixes (the vault scheme tags
of reference URIs). We model this on the underlying character lists. -/

/-- Strip a leading character list, or fail. -/
def dropChars : List Char → List Char → Option (List Char)
  | [], s => some s
  | _ :: _, [] => none
  | c :: cs, d :: ds => if c = d then dropChars cs ds else none

/-- Strip a leading literal from a string, or fail. Models the Go pattern of
checking ref[:n] against a scheme tag and slicing, and the Sscanf literal
match in FilesystemBackend.Retrieve. -/
def dropPfx (p s : String) : Option String :=
  (dropChars p.data s.data).map String.mk

/-! ## Filesystem models

Directories always exist in the model (os.MkdirAll succeeding); purely
physical write failures are out of the pure model, and the pipeline claims
quantify over an arbitrary store oracle to cover them. Paths are the joined
strings that filepath.Join produces on clean segments; filepath.Clean
normalization of dirty segments is not modelled. A write prepends an entry,
and reads resolve to the most recent write of a path, which models the
overwrite semantics of os.WriteFile. -/

/-- Flat filesystem: full path to byte content, most recent write first. -/
abbrev FlatFS : Type := List (String × List Nat)

/-- os.ReadFile: content at a path, from the most recent write. -/
def fsRead (fs : FlatFS) (path : String) : Option (List Nat) :=
  match fs with
  | [] => none
  | (p, d) :: rest => if p = path then some d else fsRead rest path

/-- os.WriteFile: create or overwrite the file at a path. -/
def fsWrite (fs : FlatFS) (path : String) (data : List Nat) : FlatFS :=
  (path, data) :: fs

deriving instance DecidableEq for Except

set_option maxRecDepth 100000

/-! ## storage/filesystem.go: FilesystemBackend -/

/-- storage.Reference, the record returned by FilesystemBackend.Store. -/
structure Reference where
  uri : String
  checksum : String
  encrypted : Bool
  sizeBytes : Nat
deriving Repr, DecidableEq

/-- Errors of the filesystem backend, one constructor per fmt.Errorf site in
storage/filesystem.go Retrieve. -/
inductive BackendError where
  | invalidURI : String → BackendError
  | notFound : String → BackendError
  | checksumMismatch : String → String → BackendError
deriving Repr, DecidableEq

namespace FilesystemBackend

/-- FilesystemBackend.Store: write data at base/traceID/spanID/attrKey and
return a Reference with the content SHA-256 as checksum. The write is
unconditional: there is no existence check before os.WriteFile. -/
def Store (base : String) (fs : FlatFS) (traceID spanID attrKey : String)
    (data : List Nat) : Reference × FlatFS :=
  let filePath := base ++ "/" ++ traceID ++ "/" ++ spanID ++ "/" ++ attrKey
  let checksum := sha256hex data
  (⟨"promptvault://fs/" ++ traceID ++ "/" ++ spanID ++ "/" ++ attrKey,
    checksum, false, data.length⟩,
   fsWrite fs filePath data)

/-- FilesystemBackend.Retrieve: parse the URI (the Sscanf literal match fails
when the scheme tag is absent or nothing follows it), read the file at
base/rest, recompute the SHA-256 checksum and compare it against
ref.checksum. The comparison is unconditional: an empty ref.checksum is
compared like any other value. -/
def Retrieve (base : String) (fs : FlatFS) (ref : Reference) :
    Except BackendError (List Nat) :=
  match dropPfx "promptvault://fs/" ref.uri with
  | none => .error (.invalidURI ref.uri)
  | some rest =>
    if rest = "" then .error (.invalidURI ref.uri)
    else
      let filePath := base ++ "/" ++ rest
      match fsRead fs filePath with
      | none => .error (.notFound filePath)
      | some data =>
        if sha256hex data = ref.checksum then .ok data
        else .error (.checksumMismatch ref.checksum (sha256hex data))

end FilesystemBackend

/-! ## vault.go: FilesystemVault

The vault tree is a list of (directory, file name, content) entries; Store
writes into a date-partitioned directory (time.Now passed explicitly as the
date string), and Retrieve walks the whole tree for the first file whose
name is the hex hash with the .vault extension. -/

/-- The vault directory tree: directory path, file name, file content. -/
abbrev VaultFS : Type := List (String × String × List Nat)

namespace FilesystemVault

/-- os.Stat existence check for a (directory, name) target. -/
def statExists (fs : VaultFS) (dir name : String) : Bool :=
  fs.any fun e => e.1 == dir && e.2.1 == name

/-- FilesystemVault.Store: hash the content, place it in the date-partitioned
directory under the hash name, skipping the write when the target already
exists, and return the vault scheme reference string. -/
def Store (base date : String) (fs : VaultFS) (content : List Nat) :
    String × VaultFS :=
  let hexHash := sha256hex content
  let dir := base ++ "/" ++ date
  let name := hexHash ++ ".vault"
  if statExists fs dir name then ("vault://" ++ hexHash, fs)
  else ("vault://" ++ hexHash, fs ++ [(dir, name, content)])

/-- filepath.Walk: first entry of the tree whose file name matches. -/
def walkFind (fs : VaultFS) (name : String) : Option (String × String × List Nat) :=
  fs.find? fun e => e.2.1 == name

/-- FilesystemVault.Retrieve: strip the vault scheme tag when the reference
is strictly longer than it, walk the tree for hexHash.vault and read it.
No checksum verification happens here. -/
def Retrieve (fs : VaultFS) (ref : String) : Except String (List Nat) :=
  let hexHash :=
    match dropPfx "vault://" ref with
    | some r => if r = "" then ref else r
    | none => ref
  match walkFind fs (hexHash ++ ".vault") with
  | some e => .ok e.2.2
  | none => .error ("vault ref not found: " ++ ref)

end FilesystemVault

/-! ## The attribute offload pipeline (vaultProcessor) -/

/-- A pdata attribute value. The pipeline only distinguishes the string
variant; Value.Str() in pdata returns the empty string for every other
variant, which valStr mirrors. -/
inductive PValue where
  | str : String → PValue
  | int : Int → PValue
deriving Repr, DecidableEq

/-- pdata Value.Str(): the string content, empty for non-string values. -/
def PValue.valStr : PValue → String
  | .str s => s
  | _ => ""

/-- UTF-8 encoding of one character, as Go strings store text. -/
def charUTF8 (c : Char) : List Nat :=
  let n := c.toNat
  if n < 128 then [n]
  else if n < 2048 then [192 + n / 64, 128 + n % 64]
  else if n < 65536 then [224 + n / 4096, 128 + n / 64 % 64, 128 + n % 64]
  else [240 + n / 262144, 128 + n / 4096 % 64, 128 + n / 64 % 64, 128 + n % 64]

/-- The bytes of a Go string: UTF-8 encoding. A []byte conversion yields
these bytes and len() counts them. -/
def strBytes (s : String) : List Nat := s.data.flatMap charUTF8

/-- An attribute map, in pdata iteration order. -/
abbrev Attrs : Type := List (String × PValue)

/-- pdata Map.Get / lookup of a key. -/
def getAttr (attrs : Attrs) (k : String) : Option PValue :=
  match attrs with
  | [] => none
  | (k', v) :: rest => if k' = k then some v else getAttr rest k

/-- pdata Map.PutStr: update the existing entry in place, else append. -/
def putStr (attrs : Attrs) (k : String) (v : String) : Attrs :=
  match attrs with
  | [] => [(k, .str v)]
  | (k', v') :: rest =>
    if k' = k then (k, .str v) :: rest else (k', v') :: putStr rest k v

/-- pdata Map.Remove: delete the entry of a key. -/
def removeKey (attrs : Attrs) (k : String) : Attrs :=
  match attrs with
  | [] => []
  | (k', v') :: rest => if k' = k then rest else (k', v') :: removeKey rest k

/-- A span event: name and its own attribute map. -/
structure SpanEvent where
  name : String
  attrs : Attrs
deriving Repr, DecidableEq

/-- A span: attribute map and events. Identifiers not read by the processor
are omitted. -/
structure Span where
  name : String
  attrs : Attrs
  events : List SpanEvent
deriving Repr, DecidableEq

/-- ptrace.Traces: resource spans, each a list of scope spans, each a list
of spans. -/
abbrev Traces : Type := List (List (List Span))

/-- config.go VaultConfig: eligible keys, byte threshold (a Go int), mode. -/
structure VaultConfig where
  keys : List String
  sizeThreshold : Int
  mode : String

/-- The keysSet lookup built by newVaultProcessor from cfg.Vault.Keys. -/
def keysSet (cfg : VaultConfig) (k : String) : Bool := cfg.keys.contains k

/-- One pending offload collected by the Range pass of vaultSpan. -/
structure VaultEntry where
  key : String
  content : String
deriving Repr, DecidableEq

/-- The Range pass of vaultSpan: snapshot the eligible, oversized attributes
in iteration order. A value is skipped when its key is not in the key set or
its byte length is strictly below the threshold. -/
def collectToVault (cfg : VaultConfig) (attrs : Attrs) : List VaultEntry :=
  attrs.filterMap fun kv =>
    if keysSet cfg kv.1 then
      let content := kv.2.valStr
      if ((strBytes content).length : Int) < cfg.sizeThreshold then none
      else some ⟨kv.1, content⟩
    else none

/-- The vault store as seen by the processor (the VaultStorage interface):
the payload bytes map to a reference string on success, none on failure. -/
abbrev StoreOracle : Type := List Nat → Option String

/-- One iteration of the offload loop of vaultSpan: store the content; on
failure log a warning and leave the attributes untouched; on success apply
the mode switch, which has cases only for replace_with_ref and remove. -/
def applyEntry (cfg : VaultConfig) (store : StoreOracle) (attrs : Attrs)
    (e : VaultEntry) : Attrs :=
  match store (strBytes e.content) with
  | none => attrs
  | some ref =>
    if cfg.mode = "replace_with_ref" then
      putStr (putStr attrs e.key ref) (e.key ++ ".vault_ref") ref
    else if cfg.mode = "remove" then
      putStr (removeKey attrs e.key) (e.key ++ ".vault_ref") ref
    else attrs

/-- vaultProcessor.vaultSpan on an attribute map: collect, then offload and
rewrite each pending entry in order. -/
def vaultSpanAttrs (cfg : VaultConfig) (store : StoreOracle) (attrs : Attrs) : Attrs :=
  (collectToVault cfg attrs).foldl (applyEntry cfg store) attrs

/-- vaultProcessor.vaultSpan: only the span attribute map is touched; the
events of the span are never visited. -/
def vaultSpan (cfg : VaultConfig) (store : StoreOracle) (span : Span) : Span :=
  { span with attrs := vaultSpanAttrs cfg store span.attrs }

/-- vaultProcessor.ConsumeTraces: vault every span of every scope of every
resource, then forward to the next consumer, whose error is returned as is.
The result pairs that error with the mutated traces. -/
def ConsumeTraces (cfg : VaultConfig) (store : StoreOracle)
    (down : Traces → Option String) (td : Traces) : Option String × Traces :=
  let td2 := td.map fun rs => rs.map fun ss => ss.map (vaultSpan cfg store)
  (down td2, td2)


/-! ## String lemmas -/

theorem strData_append (a b : String) : (a ++ b).data = a.data ++ b.data := rfl

theorem strAppend_assoc (a b c : String) : a ++ b ++ c = a ++ (b ++ c) := by
  cases a; cases b; cases c
  show String.mk _ = String.mk _
  simp

theorem strLength_append (a b : String) : (a ++ b).length = a.length + b.length := by
  cases a; cases b
  show (String.mk _).length = _
  simp [String.length]

theorem dropChars_append (l r : List Char) : dropChars l (l ++ r) = some r := by
  induction l with
  | nil => rfl
  | cons c cs ih => simp [dropChars, ih]

theorem dropPfx_append (p r : String) : dropPfx p (p ++ r) = some r := by
  cases p; cases r
  simp [dropPfx, strData_append, dropChars_append]

theorem slashAppend_ne_empty (x : String) : "/" ++ x ≠ "" := by
  intro h
  have h2 : ("/" ++ x).data = "".data := congrArg String.data h
  rw [strData_append] at h2
  simp at h2

theorem strEmpty_of_data_nil (s : String) (h : s.data = []) : s = "" := by
  cases s with
  | mk d =>
    have h2 : d = [] := h
    rw [h2]

theorem midSlash_ne_empty (a b : String) : a ++ "/" ++ b ≠ "" := by
  intro h
  have h2 : (a ++ "/" ++ b).data = "".data := congrArg String.data h
  rw [strData_append, strData_append] at h2
  simp at h2

theorem strAppend_ne_empty_right (a b : String) (hb : b ≠ "") : a ++ b ≠ "" := by
  intro h
  have h2 : (a ++ b).data = "".data := congrArg String.data h
  rw [strData_append] at h2
  simp at h2
  exact hb (strEmpty_of_data_nil b h2.2)

theorem ne_append_vault_ref (k : String) : k ≠ k ++ ".vault_ref" := by
  intro h
  have h2 := congrArg String.length h
  rw [strLength_append] at h2
  have h3 : (".vault_ref" : String).length = 10 := rfl
  rw [h3] at h2
  omega

/-! ## SHA-256 digest shape lemmas -/

theorem sha256bytes_cons (m : List Nat) : ∃ b l, sha256bytes m = b :: l :=
  ⟨_, _, rfl⟩

theorem sha256hex_ne_empty (m : List Nat) : sha256hex m ≠ "" := by
  obtain ⟨b, l, hb⟩ := sha256bytes_cons m
  intro h
  have h2 : ((sha256bytes m).flatMap byteHex) = "".data := congrArg String.data h
  rw [hb] at h2
  simp [byteHex] at h2

/-! ## Attribute map lemmas -/

theorem getAttr_putStr_ne (attrs : Attrs) (k k2 : String) (v : String)
    (h : k ≠ k2) : getAttr (putStr attrs k v) k2 = getAttr attrs k2 := by
  induction attrs with
  | nil => simp [putStr, getAttr, h]
  | cons kv rest ih =>
    obtain ⟨k3, v3⟩ := kv
    by_cases h3 : k3 = k
    · subst h3
      simp [putStr, getAttr, h]
    · simp [putStr, getAttr, h3, ih]

theorem getAttr_removeKey_ne (attrs : Attrs) (k k2 : String)
    (h : k ≠ k2) : getAttr (removeKey attrs k) k2 = getAttr attrs k2 := by
  induction attrs with
  | nil => rfl
  | cons kv rest ih =>
    obtain ⟨k3, v3⟩ := kv
    by_cases h3 : k3 = k
    · subst h3
      simp [removeKey, getAttr, h]
    · simp [removeKey, getAttr, h3, ih]

/-! ## Offload loop frame lemmas -/

theorem applyEntry_frame (cfg : VaultConfig) (store : StoreOracle) (attrs : Attrs)
    (e : VaultEntry) (k : String) (h1 : e.key ≠ k) (h2 : e.key ++ ".vault_ref" ≠ k) :
    getAttr (applyEntry cfg store attrs e) k = getAttr attrs k := by
  unfold applyEntry
  cases store (strBytes e.content) with
  | none => rfl
  | some ref =>
    by_cases hm : cfg.mode = "replace_with_ref"
    · simp [hm, getAttr_putStr_ne _ _ _ _ h2, getAttr_putStr_ne _ _ _ _ h1]
    · by_cases hm2 : cfg.mode = "remove"
      · simp [hm, hm2, getAttr_putStr_ne _ _ _ _ h2, getAttr_removeKey_ne _ _ _ h1]
      · simp [hm, hm2]

theorem foldl_applyEntry_frame (cfg : VaultConfig) (store : StoreOracle)
    (k : String) (es : List VaultEntry) (attrs : Attrs)
    (h : ∀ e ∈ es, e.key ≠ k ∧ e.key ++ ".vault_ref" ≠ k) :
    getAttr (es.foldl (applyEntry cfg store) attrs) k = getAttr attrs k := by
  induction es generalizing attrs with
  | nil => rfl
  | cons e rest ih =>
    have he := h e (List.mem_cons_self _ _)
    rw [List.foldl_cons, ih _ (fun x hx => h x (List.mem_cons_of_mem _ hx)),
      applyEntry_frame cfg store attrs e k he.1 he.2]

/-! ## Collection lemmas -/

theorem collect_inv (cfg : VaultConfig) (attrs : Attrs) (e : VaultEntry)
    (he : e ∈ collectToVault cfg attrs) :
    keysSet cfg e.key = true ∧
    ∃ v, (e.key, v) ∈ attrs ∧ v.valStr = e.content ∧
      ¬ ((strBytes e.content).length : Int) < cfg.sizeThreshold := by
  obtain ⟨kv, hkv, heq⟩ := List.mem_filterMap.1 he
  by_cases hk : keysSet cfg kv.1
  · by_cases hlen : ((strBytes kv.2.valStr).length : Int) < cfg.sizeThreshold
    · simp [hk, hlen] at heq
    · simp [hk, hlen] at heq
      refine ⟨by rw [← heq]; exact hk, kv.2, ?_, ?_, ?_⟩
      · rw [← heq]; exact hkv
      · rw [← heq]
      · rw [← heq]; exact hlen
  · simp [hk] at heq

theorem mem_collect (cfg : VaultConfig) (attrs : Attrs) (k : String) (v : PValue)
    (hmem : (k, v) ∈ attrs) (hk : keysSet cfg k = true)
    (hlen : ¬ ((strBytes v.valStr).length : Int) < cfg.sizeThreshold) :
    (⟨k, v.valStr⟩ : VaultEntry) ∈ collectToVault cfg attrs := by
  refine List.mem_filterMap.2 ⟨(k, v), hmem, ?_⟩
  simp [hk, hlen]

/-! ## Vault walk lemmas -/

theorem vault_retrieve_of_unique (fs : VaultFS) (h : String) (p : List Nat)
    (hne : h ≠ "")
    (hex : ∃ e ∈ fs, e.2.1 = h ++ ".vault")
    (huni : ∀ e ∈ fs, e.2.1 = h ++ ".vault" → e.2.2 = p) :
    FilesystemVault.Retrieve fs ("vault://" ++ h) = .ok p := by
  unfold FilesystemVault.Retrieve
  rw [dropPfx_append]
  have hsome : (FilesystemVault.walkFind fs (h ++ ".vault")).isSome := by
    unfold FilesystemVault.walkFind
    rw [List.find?_isSome]
    obtain ⟨e, he, hname⟩ := hex
    exact ⟨e, he, by simp [hname]⟩
  obtain ⟨e, he⟩ := Option.isSome_iff_exists.1 hsome
  have hmem := List.mem_of_find?_eq_some he
  have hpred := List.find?_some he
  simp only [beq_iff_eq] at hpred
  simp only [hne, if_neg, if_false, he]
  exact congrArg Except.ok (huni e hmem hpred)

/-! ## Backend retrieve lemmas -/

theorem backend_retrieve_ok (base rest : String) (fs : FlatFS) (ref : Reference)
    (d : List Nat) (hu : ref.uri = "promptvault://fs/" ++ rest) (hr : rest ≠ "")
    (hd : fsRead fs (base ++ "/" ++ rest) = some d)
    (hc : ref.checksum = sha256hex d) :
    FilesystemBackend.Retrieve base fs ref = .ok d := by
  unfold FilesystemBackend.Retrieve
  rw [hu, dropPfx_append]
  simp [hr, hd, hc]

theorem backend_retrieve_mismatch (base rest : String) (fs : FlatFS)
    (ref : Reference) (q : List Nat)
    (hu : ref.uri = "promptvault://fs/" ++ rest) (hr : rest ≠ "")
    (hq : fsRead fs (base ++ "/" ++ rest) = some q)
    (hc : sha256hex q ≠ ref.checksum) :
    FilesystemBackend.Retrieve base fs ref =
      .error (.checksumMismatch ref.checksum (sha256hex q)) := by
  unfold FilesystemBackend.Retrieve
  rw [hu, dropPfx_append]
  simp [hr, hq, hc]

/-! ## Store characterization -/

theorem vault_store_eq (base date : String) (fs : VaultFS) (p : List Nat) :
    FilesystemVault.Store base date fs p =
      ("vault://" ++ sha256hex p,
        if FilesystemVault.statExists fs (base ++ "/" ++ date) (sha256hex p ++ ".vault")
        then fs
        else fs ++ [(base ++ "/" ++ date, sha256hex p ++ ".vault", p)]) := by
  unfold FilesystemVault.Store
  by_cases hx : FilesystemVault.statExists fs (base ++ "/" ++ date) (sha256hex p ++ ".vault")
  · simp [hx]
  · simp [hx]

/-- C1: for every payload p, including the zero-length payload, retrieving the
reference returned by a successful Store of p yields exactly the bytes p.
For the hash-addressed FilesystemVault the hypothesis states that no file
with the same hash-derived name but different content is already present (a
SHA-256 collision in the tree); for the path-addressed FilesystemBackend the
round trip is unconditional. -/
theorem roundTrip_integrity :
    (∀ (base date : String) (fs : VaultFS) (p : List Nat),
      (∀ e ∈ fs, e.2.1 = sha256hex p ++ ".vault" → e.2.2 = p) →
      FilesystemVault.Retrieve (FilesystemVault.Store base date fs p).2
        (FilesystemVault.Store base date fs p).1 = .ok p) ∧
    (∀ (base t s k : String) (fs : FlatFS) (p : List Nat),
      FilesystemBackend.Retrieve base (FilesystemBackend.Store base fs t s k p).2
        (FilesystemBackend.Store base fs t s k p).1 = .ok p) := by
  constructor
  · intro base date fs p H
    rw [vault_store_eq]
    apply vault_retrieve_of_unique _ _ _ (sha256hex_ne_empty p)
    · by_cases hx : FilesystemVault.statExists fs (base ++ "/" ++ date)
        (sha256hex p ++ ".vault")
      · rw [if_pos hx]
        obtain ⟨e, he, hb⟩ := List.any_eq_true.1 hx
        simp only [Bool.and_eq_true, beq_iff_eq] at hb
        exact ⟨e, he, hb.2⟩
      · rw [if_neg hx]
        exact ⟨(base ++ "/" ++ date, sha256hex p ++ ".vault", p), by simp, rfl⟩
    · intro e he hname
      by_cases hx : FilesystemVault.statExists fs (base ++ "/" ++ date)
        (sha256hex p ++ ".vault")
      · rw [if_pos hx] at he
        exact H e he hname
      · rw [if_neg hx] at he
        rcases List.mem_append.1 he with h1 | h2
        · exact H e h1 hname
        · simp at h2
          rw [h2]
  · intro base t s k fs p
    apply backend_retrieve_ok base (t ++ "/" ++ s ++ "/" ++ k)
    · show "promptvault://fs/" ++ t ++ "/" ++ s ++ "/" ++ k =
        "promptvault://fs/" ++ (t ++ "/" ++ s ++ "/" ++ k)
      simp [strAppend_assoc]
    · exact midSlash_ne_empty (t ++ "/" ++ s) k
    · show fsRead (fsWrite fs (base ++ "/" ++ t ++ "/" ++ s ++ "/" ++ k) p)
        (base ++ "/" ++ (t ++ "/" ++ s ++ "/" ++ k)) = some p
      have hp : base ++ "/" ++ (t ++ "/" ++ s ++ "/" ++ k) =
          base ++ "/" ++ t ++ "/" ++ s ++ "/" ++ k := by
        simp [strAppend_assoc]
      rw [hp]
      simp [fsWrite, fsRead]
    · rfl

/-- C1 witness: the round trip at concrete inputs, with the zero-length
payload in the empty vault tree. -/
theorem roundTrip_integrity_witness :
    (∀ e ∈ ([] : VaultFS), e.2.1 = sha256hex [] ++ ".vault" → e.2.2 = []) ∧
    FilesystemVault.Retrieve (FilesystemVault.Store "b" "2024/01/02" [] []).2
      (FilesystemVault.Store "b" "2024/01/02" [] []).1 = .ok [] ∧
    FilesystemBackend.Retrieve "b" (FilesystemBackend.Store "b" [] "t" "s" "k" []).2
      (FilesystemBackend.Store "b" [] "t" "s" "k" []).1 = .ok [] :=
  ⟨by simp, roundTrip_integrity.1 "b" "2024/01/02" [] [] (by simp),
    roundTrip_integrity.2 "b" "t" "s" "k" [] []⟩

/-- C2: for a reference produced by Store of payload p (whose checksum is the
non-empty digest of p), if the bytes q resolved from the locator differ from p
in their SHA-256 digest, Retrieve returns the checksum-mismatch error and
never the altered bytes. -/
theorem checksum_enforcement (base t s k : String) (fs0 fsT : FlatFS)
    (p q : List Nat)
    (hq : fsRead fsT (base ++ "/" ++ (t ++ "/" ++ s ++ "/" ++ k)) = some q)
    (hne : sha256hex q ≠ sha256hex p) :
    (FilesystemBackend.Store base fs0 t s k p).1.checksum ≠ "" ∧
    FilesystemBackend.Retrieve base fsT (FilesystemBackend.Store base fs0 t s k p).1 =
      .error (.checksumMismatch (sha256hex p) (sha256hex q)) ∧
    ∀ d, FilesystemBackend.Retrieve base fsT
      (FilesystemBackend.Store base fs0 t s k p).1 ≠ .ok d := by
  have hmain : FilesystemBackend.Retrieve base fsT
      (FilesystemBackend.Store base fs0 t s k p).1 =
      .error (.checksumMismatch (sha256hex p) (sha256hex q)) := by
    refine backend_retrieve_mismatch base (t ++ "/" ++ s ++ "/" ++ k) fsT _ q
      ?_ (midSlash_ne_empty (t ++ "/" ++ s) k) hq hne
    show "promptvault://fs/" ++ t ++ "/" ++ s ++ "/" ++ k =
      "promptvault://fs/" ++ (t ++ "/" ++ s ++ "/" ++ k)
    simp [strAppend_assoc]
  exact ⟨sha256hex_ne_empty p, hmain, fun d hd => by rw [hmain] at hd; cases hd⟩

/-- C2 witness: a one-byte payload whose stored location was overwritten with
a different byte; the digests differ and Retrieve reports the mismatch. -/
theorem checksum_enforcement_witness :
    fsRead [("b/t/s/k", [1])] ("b" ++ "/" ++ ("t" ++ "/" ++ "s" ++ "/" ++ "k")) =
      some [1] ∧
    sha256hex [1] ≠ sha256hex [0] ∧
    FilesystemBackend.Retrieve "b" [("b/t/s/k", [1])]
      (FilesystemBackend.Store "b" [] "t" "s" "k" [0]).1 =
      .error (.checksumMismatch (sha256hex [0]) (sha256hex [1])) :=
  ⟨by decide, by decide,
    (checksum_enforcement "b" "t" "s" "k" [] [("b/t/s/k", [1])] [0] [1]
      (by decide) (by decide)).2.1⟩

/-- C6 counterexample: a reference with an empty checksum field over an
existing two-byte object. The claim says Retrieve skips verification and
returns the raw bytes; the code compares the recomputed digest against the
empty string, which never matches, so it returns the checksum-mismatch error
and not the bytes. -/
theorem legacy_empty_checksum_counterexample :
    FilesystemBackend.Retrieve "b" [("b/t", [104, 105])]
      ⟨"promptvault://fs/t", "", false, 2⟩ =
      .error (.checksumMismatch "" (sha256hex [104, 105])) ∧
    FilesystemBackend.Retrieve "b" [("b/t", [104, 105])]
      ⟨"promptvault://fs/t", "", false, 2⟩ ≠ .ok [104, 105] := by
  constructor
  · decide
  · decide

/-- C6 amended: for every reference whose checksum field is the empty string,
Retrieve of an existing object does not skip verification: the recomputed
digest is never empty, so the result is always the checksum-mismatch error,
and the raw bytes are never returned. -/
theorem empty_checksum_always_mismatch (base rest : String) (fs : FlatFS)
    (ref : Reference) (q : List Nat)
    (hu : ref.uri = "promptvault://fs/" ++ rest) (hr : rest ≠ "")
    (hq : fsRead fs (base ++ "/" ++ rest) = some q)
    (hc : ref.checksum = "") :
    FilesystemBackend.Retrieve base fs ref =
      .error (.checksumMismatch "" (sha256hex q)) := by
  have h := backend_retrieve_mismatch base rest fs ref q hu hr hq
    (by rw [hc]; exact sha256hex_ne_empty q)
  rw [hc] at h
  exact h

/-- C6 amended witness. -/
theorem empty_checksum_always_mismatch_witness :
    (⟨"promptvault://fs/x", "", false, 1⟩ : Reference).uri =
      "promptvault://fs/" ++ "x" ∧
    ("x" : String) ≠ "" ∧
    fsRead [("b/x", [5])] ("b" ++ "/" ++ "x") = some [5] ∧
    FilesystemBackend.Retrieve "b" [("b/x", [5])]
      ⟨"promptvault://fs/x", "", false, 1⟩ =
      .error (.checksumMismatch "" (sha256hex [5])) :=
  ⟨by decide, by decide, by decide,
    empty_checksum_always_mismatch "b" "x" [("b/x", [5])]
      ⟨"promptvault://fs/x", "", false, 1⟩ [5] (by decide) (by decide)
      (by decide) rfl⟩

/-- C9 counterexample: FilesystemBackend.Store has no existence check; a
second Store to the same (traceID, spanID, attrKey) identity overwrites the
previously stored object, so its bytes are not left unchanged. -/
theorem backend_store_overwrite_counterexample :
    fsRead (FilesystemBackend.Store "b" [] "t" "s" "k" [1]).2 "b/t/s/k" =
      some [1] ∧
    fsRead (FilesystemBackend.Store "b"
        (FilesystemBackend.Store "b" [] "t" "s" "k" [1]).2 "t" "s" "k" [2]).2
      "b/t/s/k" = some [2] ∧
    some [2] ≠ some ([1] : List Nat) := by
  refine ⟨by decide, by decide, by decide⟩

/-- C9 amended: the skip-on-existence write discipline holds for the
hash-addressed FilesystemVault.Store, which leaves the tree unchanged when
the target object exists; and FilesystemBackend.Store, though it overwrites
its own target identity, never mutates or deletes any other path. -/
theorem store_skip_and_frame :
    (∀ (base date : String) (fs : VaultFS) (p : List Nat),
      FilesystemVault.statExists fs (base ++ "/" ++ date)
        (sha256hex p ++ ".vault") = true →
      FilesystemVault.Store base date fs p = ("vault://" ++ sha256hex p, fs)) ∧
    (∀ (base t s k path : String) (fs : FlatFS) (d : List Nat),
      path ≠ base ++ "/" ++ t ++ "/" ++ s ++ "/" ++ k →
      fsRead (FilesystemBackend.Store base fs t s k d).2 path = fsRead fs path) := by
  constructor
  · intro base date fs p hx
    rw [vault_store_eq, if_pos hx]
  · intro base t s k path fs d hne
    show fsRead ((base ++ "/" ++ t ++ "/" ++ s ++ "/" ++ k, d) :: fs) path = fsRead fs path
    simp only [fsRead]
    rw [if_neg (fun hc => hne hc.symm)]

/-- C9 amended witness: a vault tree already holding the object of payload
[7], and an unrelated path under the backend. -/
theorem store_skip_and_frame_witness :
    FilesystemVault.statExists [("b" ++ "/" ++ "d", sha256hex [7] ++ ".vault", [7])]
      ("b" ++ "/" ++ "d") (sha256hex [7] ++ ".vault") = true ∧
    FilesystemVault.Store "b" "d"
      [("b" ++ "/" ++ "d", sha256hex [7] ++ ".vault", [7])] [7] =
      ("vault://" ++ sha256hex [7],
        [("b" ++ "/" ++ "d", sha256hex [7] ++ ".vault", [7])]) ∧
    ("zzz" : String) ≠ "b" ++ "/" ++ "t" ++ "/" ++ "s" ++ "/" ++ "k" ∧
    fsRead (FilesystemBackend.Store "b" [] "t" "s" "k" [1]).2 "zzz" =
      fsRead [] "zzz" := by
  have h1 : FilesystemVault.statExists
      [("b" ++ "/" ++ "d", sha256hex [7] ++ ".vault", [7])]
      ("b" ++ "/" ++ "d") (sha256hex [7] ++ ".vault") = true := by
    simp [FilesystemVault.statExists]
  refine ⟨h1, store_skip_and_frame.1 "b" "d" _ [7] h1, by decide,
    store_skip_and_frame.2 "b" "t" "s" "k" "zzz" [] [1] (by decide)⟩

/-! ## Pipeline claim theorems -/

theorem mem_of_keysSet (cfg : VaultConfig) (k : String)
    (h : keysSet cfg k = true) : k ∈ cfg.keys := by
  simpa [keysSet] using h

/-- C3: ConsumeTraces returns a non-nil error exactly when the downstream
forwarding call does (its result is the forwarded error itself), and a
per-attribute store failure makes that iteration of the offload loop a
no-op, leaving the attributes exactly as found while the fold continues
with the remaining pending entries. -/
theorem batch_error_iff_downstream (cfg : VaultConfig) (store : StoreOracle)
    (down : Traces → Option String) (td : Traces) (attrs : Attrs)
    (e : VaultEntry) (rest : List VaultEntry)
    (hfail : store (strBytes e.content) = none) :
    (ConsumeTraces cfg store down td).1 =
      down (ConsumeTraces cfg store down td).2 ∧
    applyEntry cfg store attrs e = attrs ∧
    (e :: rest).foldl (applyEntry cfg store) attrs =
      rest.foldl (applyEntry cfg store) attrs := by
  have happ : applyEntry cfg store attrs e = attrs := by
    unfold applyEntry
    rw [hfail]
  exact ⟨rfl, happ, by rw [List.foldl_cons, happ]⟩

/-- C3 witness: a store that fails on every call leaves a concrete attribute
map untouched by its loop iteration. -/
theorem batch_error_iff_downstream_witness :
    applyEntry ⟨["k"], 0, "replace_with_ref"⟩ (fun _ => none)
      [("k", PValue.str "v")] ⟨"k", "v"⟩ = [("k", PValue.str "v")] :=
  (batch_error_iff_downstream ⟨["k"], 0, "replace_with_ref"⟩ (fun _ => none)
    (fun _ => none) [] [("k", PValue.str "v")] ⟨"k", "v"⟩ [] rfl).2.1

/-- C4: an eligible attribute whose byte length equals the size threshold is
collected for offload, and one whose byte length is strictly below the
threshold is not collected and is left untouched by the whole span pass
(given that no other eligible key makes this key its vault_ref sibling). -/
theorem threshold_boundary (cfg : VaultConfig) (store : StoreOracle)
    (attrs : Attrs) (k s : String)
    (hk : keysSet cfg k = true)
    (hval : ∀ kv ∈ attrs, kv.1 = k → kv.2 = PValue.str s)
    (hmem : (k, PValue.str s) ∈ attrs)
    (href : ∀ k2 ∈ cfg.keys, k ≠ k2 ++ ".vault_ref") :
    (((strBytes s).length : Int) = cfg.sizeThreshold →
      (⟨k, s⟩ : VaultEntry) ∈ collectToVault cfg attrs) ∧
    (((strBytes s).length : Int) < cfg.sizeThreshold →
      (∀ e ∈ collectToVault cfg attrs, e.key ≠ k) ∧
      getAttr (vaultSpanAttrs cfg store attrs) k = getAttr attrs k) := by
  constructor
  · intro heq
    exact mem_collect cfg attrs k (PValue.str s) hmem hk (by simp [PValue.valStr, heq])
  · intro hlt
    have hkeys : ∀ e ∈ collectToVault cfg attrs, e.key ≠ k := by
      intro e he hek
      obtain ⟨hkk, v, hv, hvs, hnl⟩ := collect_inv cfg attrs e he
      rw [hek] at hv
      have hv2 : v = PValue.str s := hval (k, v) hv rfl
      rw [hv2] at hvs
      have hvs2 : s = e.content := hvs
      rw [← hvs2] at hnl
      exact hnl hlt
    refine ⟨hkeys, ?_⟩
    unfold vaultSpanAttrs
    apply foldl_applyEntry_frame
    intro e he
    refine ⟨hkeys e he, ?_⟩
    have hmemk := mem_of_keysSet cfg e.key (collect_inv cfg attrs e he).1
    exact fun hc => (href e.key hmemk) hc.symm

/-- C4 witness: threshold 50 and a 50-byte eligible string, which is
collected for offload. -/
theorem threshold_boundary_witness :
    (⟨"gen_ai.input.messages",
      "01234567890123456789012345678901234567890123456789"⟩ : VaultEntry) ∈
      collectToVault ⟨["gen_ai.input.messages"], 50, "replace_with_ref"⟩
        [("gen_ai.input.messages",
          PValue.str "01234567890123456789012345678901234567890123456789")] :=
  (threshold_boundary ⟨["gen_ai.input.messages"], 50, "replace_with_ref"⟩
    (fun _ => some "R") _ "gen_ai.input.messages"
    "01234567890123456789012345678901234567890123456789"
    (by decide) (by decide) (by decide) (by decide)).1 (by decide)

/-- C5 (code_bug evidence): with mode keep_and_ref and a store that succeeds,
the span attributes come out exactly as they went in: the original value is
untouched but no vault_ref sibling is set, because the mode switch in
vaultSpan has no keep_and_ref case. The golden fixture expects the sibling
to be present. -/
theorem keep_and_ref_adds_nothing :
    vaultSpanAttrs ⟨["gen_ai.input.messages"], 0, "keep_and_ref"⟩
        (fun _ => some "REF")
        [("gen_ai.input.messages",
          PValue.str "Keep me around but also vault me for durability")] =
      [("gen_ai.input.messages",
        PValue.str "Keep me around but also vault me for durability")] ∧
    getAttr (vaultSpanAttrs ⟨["gen_ai.input.messages"], 0, "keep_and_ref"⟩
        (fun _ => some "REF")
        [("gen_ai.input.messages",
          PValue.str "Keep me around but also vault me for durability")])
      "gen_ai.input.messages.vault_ref" = none := by
  constructor
  · decide
  · decide

/-- C7 (code_bug evidence): the processor never visits span events, so an
eligible oversized event attribute is never offloaded: vaultSpan preserves
events verbatim for every input, and on the repository's own event fixture
ConsumeTraces returns the traces entirely unchanged even though the store
succeeds and the event attribute is eligible with threshold 0. -/
theorem events_never_offloaded :
    (∀ (cfg : VaultConfig) (store : StoreOracle) (sp : Span),
      (vaultSpan cfg store sp).events = sp.events) ∧
    ConsumeTraces ⟨["gen_ai.prompt"], 0, "replace_with_ref"⟩ (fun _ => some "REF")
        (fun _ => none)
        [[[⟨"test-span", [],
          [⟨"gen_ai.prompt",
            [("gen_ai.prompt", PValue.str
              "A long prompt that should be vaulted from the event attributes")]⟩]⟩]]] =
      (none,
        [[[⟨"test-span", [],
          [⟨"gen_ai.prompt",
            [("gen_ai.prompt", PValue.str
              "A long prompt that should be vaulted from the event attributes")]⟩]⟩]]]) :=
  ⟨fun _ _ _ => rfl, by decide⟩

/-- C8 counterexample: with keys = [a], a pre-existing attribute named
a.vault_ref, which is not in the key set, is overwritten by the successful
offload of a, so it is not byte-for-byte unchanged in the output. -/
theorem vault_ref_sibling_overwritten :
    getAttr (vaultSpanAttrs ⟨["a"], 0, "replace_with_ref"⟩ (fun _ => some "REF")
        [("a", PValue.str "xx"), ("a.vault_ref", PValue.str "old")])
      "a.vault_ref" = some (PValue.str "REF") ∧
    some (PValue.str "REF") ≠ some (PValue.str "old") := by
  constructor
  · decide
  · decide

/-- C8 amended: an attribute whose key is not in the key set and is not of
the form k2.vault_ref for any eligible key k2 is unchanged in the output,
for every mode, size, and store behaviour. -/
theorem non_eligible_passthrough (cfg : VaultConfig) (store : StoreOracle)
    (attrs : Attrs) (k : String)
    (h1 : cfg.keys.contains k = false)
    (h2 : ∀ k2 ∈ cfg.keys, k ≠ k2 ++ ".vault_ref") :
    getAttr (vaultSpanAttrs cfg store attrs) k = getAttr attrs k := by
  unfold vaultSpanAttrs
  apply foldl_applyEntry_frame
  intro e he
  have hmemk := mem_of_keysSet cfg e.key (collect_inv cfg attrs e he).1
  constructor
  · intro hek
    rw [hek] at hmemk
    have : cfg.keys.contains k = true := by
      simpa using hmemk
    rw [h1] at this
    cases this
  · exact fun hc => (h2 e.key hmemk) hc.symm

/-- C8 amended witness: a non-eligible attribute passes through unchanged. -/
theorem non_eligible_passthrough_witness :
    getAttr (vaultSpanAttrs ⟨["a"], 0, "replace_with_ref"⟩ (fun _ => some "R")
      [("b", PValue.str "v")]) "b" = getAttr [("b", PValue.str "v")] "b" :=
  non_eligible_passthrough ⟨["a"], 0, "replace_with_ref"⟩ (fun _ => some "R")
    [("b", PValue.str "v")] "b" (by decide) (by decide)

/-- C10: an eligible non-string attribute is read through Value.Str as the
empty string; with threshold 0 it is collected as a zero-length payload, and
a successful store overwrites the original value in replace_with_ref mode
and deletes it in remove mode. -/
theorem nonstring_reads_empty (k : String) (n : Int) (r : String)
    (store : StoreOracle) (hs : store [] = some r) :
    collectToVault ⟨[k], 0, "replace_with_ref"⟩ [(k, PValue.int n)] =
      [⟨k, ""⟩] ∧
    vaultSpanAttrs ⟨[k], 0, "replace_with_ref"⟩ store [(k, PValue.int n)] =
      [(k, PValue.str r), (k ++ ".vault_ref", PValue.str r)] ∧
    vaultSpanAttrs ⟨[k], 0, "remove"⟩ store [(k, PValue.int n)] =
      [(k ++ ".vault_ref", PValue.str r)] := by
  have hcol : ∀ m : String,
      collectToVault ⟨[k], 0, m⟩ [(k, PValue.int n)] = [⟨k, ""⟩] := by
    intro m
    simp [collectToVault, keysSet, PValue.valStr, strBytes]
  have hsb : strBytes "" = [] := rfl
  refine ⟨hcol _, ?_, ?_⟩
  · unfold vaultSpanAttrs
    rw [hcol]
    simp [applyEntry, hsb, hs, putStr, ne_append_vault_ref k]
  · unfold vaultSpanAttrs
    rw [hcol]
    simp [applyEntry, hsb, hs, putStr, removeKey, ne_append_vault_ref k]

/-- C10 witness: a concrete integer attribute vaulted as the empty payload
and overwritten with the reference. -/
theorem nonstring_reads_empty_witness :
    vaultSpanAttrs ⟨["k"], 0, "replace_with_ref"⟩ (fun _ => some "R")
      [("k", PValue.int 0)] =
      [("k", PValue.str "R"), ("k" ++ ".vault_ref", PValue.str "R")] :=
  (nonstring_reads_empty "k" 0 "R" (fun _ => some "R") rfl).2.1
